import Mathlib

/-!
Shallow embedding of the clinic-manager repository's report/aggregation core
and CRUD orchestration, with proofs of the specification's claims.

The source is a TypeScript/React application.  Monetary values are embedded
as rationals (ℚ): every concrete monetary constant used in the theorems and
witnesses below is a dyadic rational with a tiny numerator (e.g. 100, 50.5,
75.25, 0.125), which a 64-bit binary float represents exactly, so on these
inputs the JavaScript `number` arithmetic of the source coincides with exact
rational arithmetic.  No universally quantified theorem below asserts an
arithmetic identity of the source's float64 summation over arbitrary
rational values; the one numeric identity stated universally (the amended
C2) is restricted by hypothesis to integer-valued inputs, on which every
intermediate of both folds is an integer and float64 addition (below 2^53)
is exact, so the source's arithmetic again coincides with ℚ there.  All
other aggregation claims (grouping, counting, ordering, partition) do not
depend on the value arithmetic at all.
-/

namespace ClinicManager

/-- Flattened appointment record fed to the aggregator
(`AppointmentWithPatient` in FinancialReport): id, date string as fetched
(`yyyy-MM-dd`), patient display name, monetary value. -/
structure AppointmentWithPatient where
  id : String
  date : String
  patientName : String
  value : ℚ
deriving DecidableEq

/-- Per-patient group produced by `calculateTotals` (`PatientTotal` in
FinancialReport). -/
structure PatientTotal where
  patientName : String
  totalValue : ℚ
  appointments : List AppointmentWithPatient
deriving DecidableEq

/-- One step of the `reduce` in `calculateTotals`: JavaScript
`acc[app.patientName]` lookup/insertion.  A missing key appends a fresh
`{patientName, totalValue: 0, appointments: []}` entry at the end of the
object's property order and then adds `app.value` and pushes `app`, which
nets to appending `{name, app.value, [app]}`; an existing key keeps its
position and is updated in place. -/
def addApp (acc : List PatientTotal) (a : AppointmentWithPatient) :
    List PatientTotal :=
  match acc with
  | [] => [⟨a.patientName, a.value, [a]⟩]
  | p :: ps =>
      if p.patientName = a.patientName then
        ⟨p.patientName, p.totalValue + a.value, p.appointments ++ [a]⟩ :: ps
      else
        p :: addApp ps a

/-- The accumulator object `totals` of `calculateTotals` after folding the
whole input: an insertion-ordered association list keyed by patient name. -/
def totalsMap (apps : List AppointmentWithPatient) : List PatientTotal :=
  apps.foldl addApp []

/-- Numeric value of a digit string (no sign handling; callers guarantee the
string is all digits). -/
def digitsVal (cs : List Char) : Nat :=
  cs.foldl (fun n c => 10 * n + (c.toNat - 48)) 0

/-- ECMAScript "array index" test on a property key: a canonical base-10
numeral (no leading zero except "0" itself) whose value is below 2^32 - 1.
`Object.values` enumerates such keys first, in ascending numeric order,
before the remaining string keys in insertion order. -/
def isArrayIndex (s : String) : Bool :=
  match s.toList with
  | [] => false
  | c :: rest =>
      (c :: rest).all Char.isDigit &&
      (decide (c ≠ '0') || decide (rest = [])) &&
      decide (digitsVal (c :: rest) < 4294967295)

/-- Numeric sort key of an array-index-named group. -/
def numKey (p : PatientTotal) : Nat :=
  digitsVal p.patientName.toList

/-- Insert a group into a list sorted by ascending `numKey`. -/
def insertByNum (p : PatientTotal) : List PatientTotal → List PatientTotal
  | [] => [p]
  | q :: qs =>
      if numKey p ≤ numKey q then p :: q :: qs else q :: insertByNum p qs

/-- Sort groups by ascending `numKey`. -/
def sortByNum (l : List PatientTotal) : List PatientTotal :=
  l.foldr insertByNum []

/-- ECMAScript `Object.values` enumeration order applied to the accumulator:
array-index keys in ascending numeric order first, then the remaining keys
in insertion order. -/
def jsObjectValues (l : List PatientTotal) : List PatientTotal :=
  sortByNum (l.filter (fun p => isArrayIndex p.patientName)) ++
    l.filter (fun p => !isArrayIndex p.patientName)

/-- `calculateTotals` (FinancialReport): fold the records into the name-keyed
object, then read the groups back in `Object.values` order. -/
def calculateTotals (apps : List AppointmentWithPatient) : List PatientTotal :=
  jsObjectValues (totalsMap apps)

/-- The `totalValue` state computed by `calculateTotals`:
`patientTotalsList.reduce((sum, patient) => sum + patient.totalValue, 0)`. -/
def totalValue (apps : List AppointmentWithPatient) : ℚ :=
  ((calculateTotals apps).map PatientTotal.totalValue).sum

/-- Names of the groups of an accumulator, in order. -/
def keys (l : List PatientTotal) : List String :=
  l.map PatientTotal.patientName

/-- First-appearance deduplication of a list of names. -/
def firstAppearNames (ns : List String) : List String :=
  ns.foldl (fun acc n => if n ∈ acc then acc else acc ++ [n]) []

/-- Index of the first input record bearing a given patient name
(`l.length` when no record does). -/
def firstOccur (l : List AppointmentWithPatient) (n : String) : Nat :=
  l.findIdx (fun r => r.patientName == n)

/-- JavaScript `Number.prototype.toFixed(2)` numeric semantics on an exact
value: the integer `n` minimizing `|n / 100 - x|`, ties to the larger `n`;
that is `⌊100 x + 1/2⌋`, displayed over 100. -/
def round2 (x : ℚ) : ℚ :=
  (⌊100 * x + 1 / 2⌋ : ℤ) / 100

example : isArrayIndex "0" = true := by decide
example : isArrayIndex "Ana" = false := by decide
example : isArrayIndex "01" = false := by decide

/-! ## Scheduling screen: entities, fetches and the referential guard
(AppointmentScheduling). -/

/-- Joined patient row embedded in an Appointment
(`patient:patients (id, name)`). -/
structure SchedPatient where
  id : String
  name : String
deriving DecidableEq

/-- Joined appointment-type row embedded in an Appointment. -/
structure TypeRef where
  id : String
  name : String
  value : ℚ
deriving DecidableEq

/-- An `appointment_types` row. -/
structure AppointmentType where
  id : String
  name : String
  value : ℚ
  user_id : String
deriving DecidableEq

/-- An `appointments` row with its joins, as fetched by the scheduling
screen. -/
structure Appointment where
  id : String
  patient_id : String
  date : String
  time : String
  value : ℚ
  appointment_type_id : Option String
  user_id : String
  patient : Option SchedPatient
  appointment_type : Option TypeRef
deriving DecidableEq

/-- The remote record store (the two tables the guard touches). -/
structure Store where
  appointmentTypes : List AppointmentType
  appointments : List Appointment
deriving DecidableEq

/-- Component state of the scheduling screen: server store plus the local
copies of both lists and the current user id. -/
structure SchedulingState where
  store : Store
  localTypes : List AppointmentType
  localAppointments : List Appointment
  currentUser : String
deriving DecidableEq

/-- `fetchAppointmentTypes`: rows of `appointment_types` with
`user_id = currentUser` (the server-side name ordering is not modelled;
no claim depends on it). -/
def fetchAppointmentTypesFrom (store : Store) (uid : String) :
    List AppointmentType :=
  store.appointmentTypes.filter (fun t => t.user_id == uid)

/-- `fetchAppointments`: rows of `appointments` with `user_id = currentUser`
(the server-side date/time ordering is not modelled; no claim depends on
it). -/
def fetchAppointmentsFrom (store : Store) (uid : String) : List Appointment :=
  store.appointments.filter (fun a => a.user_id == uid)

/-- Outcome of `handleDeleteAppointmentType`: the blocking "type is in use"
notification, or a completed deletion. -/
inductive DeleteTypeOutcome where
  | blocked
  | deleted
deriving DecidableEq

/-- `handleDeleteAppointmentType`: query appointments with
`appointment_type_id = typeId` limited to one row; if any row comes back,
toast the blocking message and return without touching anything; otherwise
delete the type from the store and re-fetch both local lists. -/
def handleDeleteAppointmentType (s : SchedulingState) (typeId : String) :
    SchedulingState × DeleteTypeOutcome :=
  let usingType :=
    (s.store.appointments.filter
      (fun a => a.appointment_type_id == some typeId)).take 1
  if 0 < usingType.length then
    (s, DeleteTypeOutcome.blocked)
  else
    let store1 : Store :=
      { s.store with
        appointmentTypes :=
          s.store.appointmentTypes.filter (fun t => !(t.id == typeId)) }
    ({ s with
        store := store1,
        localTypes := fetchAppointmentTypesFrom store1 s.currentUser,
        localAppointments := fetchAppointmentsFrom store1 s.currentUser },
      DeleteTypeOutcome.deleted)

/-- The scheduled-consultations table of the scheduling screen renders
`appointments.filter(appointment => appointment.patient !== null)`. -/
def visibleAppointments (apps : List Appointment) : List Appointment :=
  apps.filter (fun a => a.patient.isSome)

/-! ## Financial report fetch (FinancialReport.fetchAppointments). -/

/-- Joined `patients (name)` row of the report query. -/
structure ReportPatientRef where
  name : String
deriving DecidableEq

/-- A raw row of the report query: id, date, value, joined patient. -/
structure ReportRow where
  id : String
  date : String
  value : Option ℚ
  patients : Option ReportPatientRef
deriving DecidableEq

/-- The report's row filter `app.patients && app.patients.name`: keeps a row
exactly when the joined patient is present and its name is truthy (a
non-empty string). -/
def rowKeep (r : ReportRow) : Bool :=
  match r.patients with
  | none => false
  | some p => decide (p.name ≠ "")

/-- The row mapping of `fetchAppointments`:
`patientName: app.patients?.name || 'Paciente Desconhecido'`,
`value: app.value || 0`. -/
def toFormattedRow (r : ReportRow) : AppointmentWithPatient :=
  { id := r.id
    date := r.date
    patientName :=
      match r.patients with
      | some p => if p.name = "" then "Paciente Desconhecido" else p.name
      | none => "Paciente Desconhecido"
    value := r.value.getD 0 }

/-- `formattedAppointments` in `fetchAppointments`: filter then map. -/
def formattedAppointments (rows : List ReportRow) :
    List AppointmentWithPatient :=
  (rows.filter rowKeep).map toFormattedRow

/-! ## Exporter (handleExportExcel). -/

/-- Two-digit zero padding. -/
def pad2 (n : Nat) : String :=
  if n < 10 then "0" ++ toString n else toString n

/-- `format(new Date(s), 'dd/MM/yyyy')` on a well-formed `yyyy-MM-dd` store
date string, rendered in UTC: rearrange the components. -/
def formatBR (s : String) : String :=
  s.drop 8 ++ "/" ++ (s.drop 5).take 2 ++ "/" ++ s.take 4

/-- `x.toFixed(2)` on an exact value: round to `n = ⌊100 x + 1/2⌋`
hundredths and print with two decimals. -/
def toFixed2 (x : ℚ) : String :=
  let n : ℤ := ⌊100 * x + 1 / 2⌋
  (if n < 0 then "-" else "") ++
    toString (n.natAbs / 100) ++ "." ++ pad2 (n.natAbs % 100)

/-- One exported data row per appointment:
`{Paciente, Data: dd/MM/yyyy, Valor: "R$ <toFixed(2)>"}`. -/
def appointmentRow (a : AppointmentWithPatient) : List String :=
  [a.patientName, formatBR a.date, "R$ " ++ toFixed2 a.value]

/-- One appended summary row per patient:
`["Total <name>:", "", "R$ <subtotal.toFixed(2)>"]`. -/
def patientTotalRow (p : PatientTotal) : List String :=
  ["Total " ++ p.patientName ++ ":", "", "R$ " ++ toFixed2 p.totalValue]

/-- The final appended row `["Total Geral:", "", "R$ <total.toFixed(2)>"]`. -/
def grandTotalRow (g : ℚ) : List String :=
  ["Total Geral:", "", "R$ " ++ toFixed2 g]

/-- Header row produced by `json_to_sheet` from the row object keys. -/
def headerRow : List String :=
  ["Paciente", "Data", "Valor"]

/-- The sheet built by `handleExportExcel`: `json_to_sheet` of the flatMap of
per-group appointment rows (header first), then `sheet_add_aoa` at origin
`-1` appends the per-patient summary rows and the grand-total row. -/
def exportSheet (pts : List PatientTotal) (grand : ℚ) : List (List String) :=
  (headerRow :: pts.flatMap (fun p => p.appointments.map appointmentRow)) ++
    (pts.map patientTotalRow ++ [grandTotalRow grand])

/-- date-fns `ptBR` month names. -/
def monthNamesPtBR : List String :=
  ["janeiro", "fevereiro", "março", "abril", "maio", "junho", "julho",
   "agosto", "setembro", "outubro", "novembro", "dezembro"]

/-- Download name `relatorio-financeiro-${format(new Date(), 'MMMM-yyyy',
{locale: ptBR})}.xlsx` for a current date in month `month` (1-based) of year
`year`. -/
def exportFileName (month year : Nat) : String :=
  "relatorio-financeiro-" ++ monthNamesPtBR.getD (month - 1) "" ++ "-" ++
    toString year ++ ".xlsx"

/-! ## Password change (ChangePassword). -/

/-- The three form fields. -/
structure PasswordFormData where
  currentPassword : String
  newPassword : String
  confirmPassword : String
deriving DecidableEq

/-- `passwordSchema`: three 6-character minimums and the refine
`newPassword === confirmPassword`. -/
def passwordSchemaOK (d : PasswordFormData) : Prop :=
  6 ≤ d.currentPassword.length ∧ 6 ≤ d.newPassword.length ∧
    6 ≤ d.confirmPassword.length ∧ d.newPassword = d.confirmPassword

instance (d : PasswordFormData) : Decidable (passwordSchemaOK d) := by
  unfold passwordSchemaOK; infer_instance

/-- The body sent to the auth service. -/
structure UpdateUserRequest where
  password : String
deriving DecidableEq

/-- `onSubmit` issues `supabase.auth.updateUser({ password:
data.newPassword })`: the request carries only the new password. -/
def onSubmitRequest (d : PasswordFormData) : UpdateUserRequest :=
  ⟨d.newPassword⟩

/-! ## Aggregator lemmas. -/

theorem addApp_keys (acc : List PatientTotal) (a : AppointmentWithPatient) :
    keys (addApp acc a) =
      if a.patientName ∈ keys acc then keys acc
      else keys acc ++ [a.patientName] := by
  induction acc with
  | nil => simp [addApp, keys]
  | cons p ps ih =>
      by_cases h : p.patientName = a.patientName
      · simp [addApp, keys, h]
      · have h2 : ¬a.patientName = p.patientName := fun hc => h hc.symm
        simp only [addApp, if_neg h, keys, List.map_cons, List.mem_cons]
        simp only [keys] at ih
        rw [ih]
        by_cases hm : a.patientName ∈ ps.map PatientTotal.patientName
        · simp [hm, h2]
        · simp [hm, h2]

theorem totalsMap_append (l : List AppointmentWithPatient)
    (a : AppointmentWithPatient) :
    totalsMap (l ++ [a]) = addApp (totalsMap l) a := by
  simp [totalsMap, List.foldl_append]

theorem firstAppearNames_append (ns : List String) (n : String) :
    firstAppearNames (ns ++ [n]) =
      if n ∈ firstAppearNames ns then firstAppearNames ns
      else firstAppearNames ns ++ [n] := by
  simp [firstAppearNames, List.foldl_append]

theorem totalsMap_keys (l : List AppointmentWithPatient) :
    keys (totalsMap l) =
      firstAppearNames (l.map AppointmentWithPatient.patientName) := by
  induction l using List.reverseRecOn with
  | nil => simp [totalsMap, keys, firstAppearNames]
  | append_singleton l a ih =>
      rw [totalsMap_append, addApp_keys, ih, List.map_append, List.map_singleton,
        firstAppearNames_append]

theorem mem_firstAppearNames_foldl (ns : List String) :
    ∀ (acc : List String) (x : String),
      (x ∈ ns.foldl (fun acc n => if n ∈ acc then acc else acc ++ [n]) acc) ↔
        x ∈ acc ∨ x ∈ ns := by
  induction ns with
  | nil => simp
  | cons n ns ih =>
      intro acc x
      rw [List.foldl_cons, ih]
      by_cases h : n ∈ acc
      · simp only [if_pos h, List.mem_cons]
        constructor
        · rintro (hx | hx)
          · exact Or.inl hx
          · exact Or.inr (Or.inr hx)
        · rintro (hx | rfl | hx)
          · exact Or.inl hx
          · exact Or.inl h
          · exact Or.inr hx
      · simp only [if_neg h, List.mem_append, List.mem_singleton,
          List.mem_cons]
        tauto

theorem mem_firstAppearNames (ns : List String) (x : String) :
    x ∈ firstAppearNames ns ↔ x ∈ ns := by
  rw [firstAppearNames, mem_firstAppearNames_foldl]
  simp

theorem nodup_firstAppearNames_foldl (ns : List String) :
    ∀ acc : List String, acc.Nodup →
      (ns.foldl (fun acc n => if n ∈ acc then acc else acc ++ [n]) acc).Nodup := by
  induction ns with
  | nil => intro acc h; simpa using h
  | cons n ns ih =>
      intro acc h
      rw [List.foldl_cons]
      by_cases hm : n ∈ acc
      · rw [if_pos hm]; exact ih acc h
      · rw [if_neg hm]
        refine ih _ ?_
        rw [List.nodup_append]
        refine ⟨h, List.nodup_singleton n, fun x hx hx1 => ?_⟩
        rw [List.mem_singleton] at hx1
        exact hm (hx1 ▸ hx)

theorem nodup_firstAppearNames (ns : List String) :
    (firstAppearNames ns).Nodup :=
  nodup_firstAppearNames_foldl ns [] List.nodup_nil

theorem nodup_keys_totalsMap (l : List AppointmentWithPatient) :
    (keys (totalsMap l)).Nodup := by
  rw [totalsMap_keys]; exact nodup_firstAppearNames _

theorem mem_keys_totalsMap (l : List AppointmentWithPatient) (x : String) :
    x ∈ keys (totalsMap l) ↔ x ∈ l.map AppointmentWithPatient.patientName := by
  rw [totalsMap_keys, mem_firstAppearNames]

theorem addApp_mem_cases (acc : List PatientTotal) (a : AppointmentWithPatient)
    (hnd : (keys acc).Nodup) (g : PatientTotal) (hg : g ∈ addApp acc a) :
    (∃ g₀, g₀ ∈ acc ∧ g₀.patientName = a.patientName ∧
        g = ⟨g₀.patientName, g₀.totalValue + a.value,
          g₀.appointments ++ [a]⟩) ∨
      (a.patientName ∉ keys acc ∧ g = ⟨a.patientName, a.value, [a]⟩) ∨
      (g ∈ acc ∧ g.patientName ≠ a.patientName) := by
  induction acc with
  | nil =>
      simp only [addApp, List.mem_singleton] at hg
      exact Or.inr (Or.inl ⟨by simp [keys], hg⟩)
  | cons p ps ih =>
      have hnd' : (keys ps).Nodup := by
        simpa [keys] using hnd.of_cons
      have hpn : p.patientName ∉ keys ps := by
        have := hnd
        simp only [keys, List.map_cons, List.nodup_cons] at this
        simpa [keys] using this.1
      by_cases h : p.patientName = a.patientName
      · rw [addApp, if_pos h] at hg
        rcases List.mem_cons.mp hg with rfl | hg'
        · exact Or.inl ⟨p, List.mem_cons_self p ps, h, rfl⟩
        · refine Or.inr (Or.inr ⟨List.mem_cons_of_mem p hg', ?_⟩)
          intro hc
          exact hpn (h ▸ hc ▸ (by simpa [keys] using List.mem_map_of_mem PatientTotal.patientName hg'))
      · rw [addApp, if_neg h] at hg
        rcases List.mem_cons.mp hg with rfl | hg'
        · exact Or.inr (Or.inr ⟨List.mem_cons_self g ps, fun hc => h hc⟩)
        · rcases ih hnd' hg' with ⟨g₀, hg₀, hn, he⟩ | ⟨hnm, he⟩ | ⟨hm, hne⟩
          · exact Or.inl ⟨g₀, List.mem_cons_of_mem p hg₀, hn, he⟩
          · refine Or.inr (Or.inl ⟨?_, he⟩)
            simp only [keys, List.map_cons, List.mem_cons]
            rintro (hc | hc)
            · exact h hc.symm
            · exact hnm (by simpa [keys] using hc)
          · exact Or.inr (Or.inr ⟨List.mem_cons_of_mem p hm, hne⟩)

/-- Central characterization of the accumulator object: every group holds
exactly the input records bearing its name, in input order, and its subtotal
is the sum of their values. -/
theorem totalsMap_spec (l : List AppointmentWithPatient) :
    ∀ g ∈ totalsMap l,
      g.appointments =
          l.filter (fun r => r.patientName == g.patientName) ∧
        g.totalValue =
          (g.appointments.map AppointmentWithPatient.value).sum := by
  induction l using List.reverseRecOn with
  | nil => simp [totalsMap]
  | append_singleton l a ih =>
      intro g hg
      rw [totalsMap_append] at hg
      rcases addApp_mem_cases _ a (nodup_keys_totalsMap l) g hg with
        ⟨g₀, hg₀, hn, rfl⟩ | ⟨hnm, rfl⟩ | ⟨hm, hne⟩
      · obtain ⟨h1, h2⟩ := ih g₀ hg₀
        constructor
        · rw [List.filter_append, ← h1]
          simp [hn]
        · simp [h2]
      · constructor
        · rw [List.filter_append]
          have : l.filter (fun r => r.patientName == a.patientName) = [] := by
            rw [List.filter_eq_nil_iff]
            intro r hr hc
            rw [beq_iff_eq] at hc
            exact hnm ((mem_keys_totalsMap l a.patientName).mpr
              (hc ▸ List.mem_map_of_mem AppointmentWithPatient.patientName hr))
          simp [this]
        · simp
      · obtain ⟨h1, h2⟩ := ih g hm
        refine ⟨?_, h2⟩
        rw [List.filter_append, ← h1]
        have : (a.patientName == g.patientName) = false := by
          rw [beq_eq_false_iff_ne]
          exact fun hc => hne hc.symm
        simp [this]

theorem addApp_join (acc : List PatientTotal) (a : AppointmentWithPatient) :
    ((addApp acc a).flatMap PatientTotal.appointments).Perm
      (acc.flatMap PatientTotal.appointments ++ [a]) := by
  induction acc with
  | nil => simp [addApp]
  | cons p ps ih =>
      by_cases h : p.patientName = a.patientName
      · rw [addApp, if_pos h]
        simp only [List.flatMap_cons]
        rw [List.append_assoc, List.append_assoc]
        exact List.Perm.append_left _ List.perm_append_comm
      · rw [addApp, if_neg h]
        simp only [List.flatMap_cons]
        rw [List.append_assoc]
        exact List.Perm.append_left _ ih

theorem totalsMap_join (l : List AppointmentWithPatient) :
    ((totalsMap l).flatMap PatientTotal.appointments).Perm l := by
  induction l using List.reverseRecOn with
  | nil => simp [totalsMap]
  | append_singleton l a ih =>
      rw [totalsMap_append]
      exact (addApp_join _ a).trans (ih.append_right [a])

theorem insertByNum_perm (p : PatientTotal) (l : List PatientTotal) :
    (insertByNum p l).Perm (p :: l) := by
  induction l with
  | nil => simp [insertByNum]
  | cons q qs ih =>
      rw [insertByNum]
      by_cases h : numKey p ≤ numKey q
      · rw [if_pos h]
      · rw [if_neg h]
        exact (ih.cons q).trans (List.Perm.swap p q qs)

theorem sortByNum_perm (l : List PatientTotal) : (sortByNum l).Perm l := by
  induction l with
  | nil => simp [sortByNum]
  | cons p ps ih =>
      have : sortByNum (p :: ps) = insertByNum p (sortByNum ps) := rfl
      rw [this]
      exact (insertByNum_perm p _).trans (ih.cons p)

theorem jsObjectValues_perm (l : List PatientTotal) :
    (jsObjectValues l).Perm l := by
  unfold jsObjectValues
  exact ((sortByNum_perm _).append_right _).trans
    (List.filter_append_perm _ l)

theorem calculateTotals_perm (l : List AppointmentWithPatient) :
    (calculateTotals l).Perm (totalsMap l) :=
  jsObjectValues_perm _

theorem mem_calculateTotals (l : List AppointmentWithPatient)
    (g : PatientTotal) : g ∈ calculateTotals l ↔ g ∈ totalsMap l :=
  (calculateTotals_perm l).mem_iff

/-- The characterization transfers to `calculateTotals` (a permutation of the
accumulator's groups). -/
theorem calculateTotals_spec (l : List AppointmentWithPatient) :
    ∀ g ∈ calculateTotals l,
      g.appointments =
          l.filter (fun r => r.patientName == g.patientName) ∧
        g.totalValue =
          (g.appointments.map AppointmentWithPatient.value).sum :=
  fun g hg => totalsMap_spec l g ((mem_calculateTotals l g).mp hg)

theorem calculateTotals_join (l : List AppointmentWithPatient) :
    ((calculateTotals l).flatMap PatientTotal.appointments).Perm l :=
  (List.Perm.flatMap_right _ (calculateTotals_perm l)).trans (totalsMap_join l)

theorem firstOccur_lt_length_of_mem (l : List AppointmentWithPatient)
    (n : String) (h : n ∈ l.map AppointmentWithPatient.patientName) :
    firstOccur l n < l.length := by
  obtain ⟨r, hr, hrn⟩ := List.mem_map.mp h
  exact List.findIdx_lt_length_of_exists ⟨r, hr, by simp [hrn]⟩

theorem firstOccur_append_of_mem (l : List AppointmentWithPatient)
    (a : AppointmentWithPatient) (n : String)
    (h : n ∈ l.map AppointmentWithPatient.patientName) :
    firstOccur (l ++ [a]) n = firstOccur l n := by
  unfold firstOccur
  have hlt : List.findIdx (fun r => r.patientName == n) l < l.length :=
    firstOccur_lt_length_of_mem l n h
  rw [List.findIdx_append, if_pos hlt]

theorem firstOccur_append_new (l : List AppointmentWithPatient)
    (a : AppointmentWithPatient)
    (h : a.patientName ∉ l.map AppointmentWithPatient.patientName) :
    firstOccur (l ++ [a]) a.patientName = l.length := by
  unfold firstOccur
  rw [List.findIdx_append, if_neg, List.findIdx_cons]
  · simp
  · intro hlt
    obtain ⟨r, hr, hp⟩ := List.findIdx_lt_length.mp hlt
    rw [beq_iff_eq] at hp
    exact h (hp ▸ List.mem_map_of_mem AppointmentWithPatient.patientName hr)

/-- The first-appearance name sequence is strictly increasing in the index of
each name's first input record. -/
theorem pairwise_firstOccur_firstAppear (l : List AppointmentWithPatient) :
    List.Pairwise (fun n₁ n₂ => firstOccur l n₁ < firstOccur l n₂)
      (firstAppearNames (l.map AppointmentWithPatient.patientName)) := by
  induction l using List.reverseRecOn with
  | nil => simp [firstAppearNames]
  | append_singleton l a ih =>
      rw [List.map_append, List.map_singleton, firstAppearNames_append]
      have stable : ∀ n ∈ firstAppearNames
          (l.map AppointmentWithPatient.patientName),
          firstOccur (l ++ [a]) n = firstOccur l n := fun n hn =>
        firstOccur_append_of_mem l a n ((mem_firstAppearNames _ n).mp hn)
      by_cases hm : a.patientName ∈ firstAppearNames
          (l.map AppointmentWithPatient.patientName)
      · rw [if_pos hm]
        exact ih.imp_of_mem fun hx hy hxy => by
          rw [stable _ hx, stable _ hy]; exact hxy
      · rw [if_neg hm]
        rw [List.pairwise_append]
        refine ⟨ih.imp_of_mem fun hx hy hxy => by
            rw [stable _ hx, stable _ hy]; exact hxy,
          List.pairwise_singleton _ _, ?_⟩
        intro x hx y hy
        rw [List.mem_singleton] at hy
        subst hy
        rw [stable x hx, firstOccur_append_new l a
          (fun hc => hm ((mem_firstAppearNames _ _).mpr hc))]
        exact firstOccur_lt_length_of_mem l x ((mem_firstAppearNames _ _).mp hx)

/-- When no patient name is a JavaScript array index, `Object.values` order
is plain insertion order. -/
theorem calculateTotals_eq_totalsMap (l : List AppointmentWithPatient)
    (h : ∀ r ∈ l, isArrayIndex r.patientName = false) :
    calculateTotals l = totalsMap l := by
  have hall : ∀ g ∈ totalsMap l, isArrayIndex g.patientName = false := by
    intro g hg
    have hk : g.patientName ∈ keys (totalsMap l) :=
      List.mem_map_of_mem PatientTotal.patientName hg
    obtain ⟨r, hr, hrn⟩ :=
      List.mem_map.mp ((mem_keys_totalsMap l _).mp hk)
    exact hrn ▸ h r hr
  unfold calculateTotals jsObjectValues
  rw [List.filter_eq_nil_iff.mpr (fun g hg => by simp [hall g hg]),
    List.filter_eq_self.mpr (fun g hg => by simp [hall g hg])]
  simp [sortByNum]

theorem sum_map_sum_flatMap (ps : List PatientTotal) :
    (ps.map (fun g =>
        (g.appointments.map AppointmentWithPatient.value).sum)).sum =
      ((ps.flatMap PatientTotal.appointments).map
        AppointmentWithPatient.value).sum := by
  induction ps with
  | nil => simp
  | cons p ps ih => simp [List.flatMap_cons, ih]

/-- The grand total is the exact sum of every input record's value. -/
theorem totalValue_eq_sum_values (l : List AppointmentWithPatient) :
    totalValue l = (l.map AppointmentWithPatient.value).sum := by
  unfold totalValue
  rw [List.map_congr_left (fun g hg => (calculateTotals_spec l g hg).2),
    sum_map_sum_flatMap]
  exact ((calculateTotals_join l).map AppointmentWithPatient.value).sum_eq

theorem calculateTotals_length (l : List AppointmentWithPatient) :
    (calculateTotals l).length =
      ((l.map AppointmentWithPatient.patientName).dedup).length := by
  rw [(calculateTotals_perm l).length_eq]
  have h2 : (totalsMap l).length =
      (firstAppearNames (l.map AppointmentWithPatient.patientName)).length := by
    rw [← totalsMap_keys]; simp [keys]
  have h3 : (firstAppearNames
      (l.map AppointmentWithPatient.patientName)).Perm
      (l.map AppointmentWithPatient.patientName).dedup :=
    (List.perm_ext_iff_of_nodup (nodup_firstAppearNames _)
      (List.nodup_dedup _)).mpr
      (fun x => by rw [mem_firstAppearNames, List.mem_dedup])
  rw [h2, h3.length_eq]

theorem exists_group_of_mem (l : List AppointmentWithPatient)
    (r : AppointmentWithPatient) (h : r ∈ l) :
    ∃ g ∈ calculateTotals l, g.patientName = r.patientName := by
  have hk : r.patientName ∈ keys (totalsMap l) :=
    (mem_keys_totalsMap l _).mpr
      (List.mem_map_of_mem AppointmentWithPatient.patientName h)
  obtain ⟨g, hg, hgn⟩ := List.mem_map.mp hk
  exact ⟨g, (mem_calculateTotals l g).mpr hg, hgn⟩

theorem take_one_filter_pos {α : Type} (p : α → Bool) (l : List α) :
    0 < ((l.filter p).take 1).length ↔ ∃ a ∈ l, p a = true := by
  rw [List.length_take, Nat.lt_min]
  constructor
  · rintro ⟨-, h⟩
    obtain ⟨a, ha⟩ := List.exists_mem_of_length_pos h
    exact ⟨a, List.mem_filter.mp ha |>.1, List.mem_filter.mp ha |>.2⟩
  · rintro ⟨a, ha, hp⟩
    exact ⟨Nat.zero_lt_one,
      List.length_pos.mpr (fun hnil =>
        (List.filter_eq_nil_iff.mp hnil a ha) hp)⟩

/-! ## Claim theorems. -/

/-- C3: if at least one appointment references the type, the delete request
is refused with the blocking outcome and neither the store nor the local
lists change in any way; if none does, the delete goes through, appointments
are untouched, exactly the rows with that type id are removed from
`appointment_types`, and both local lists are re-fetched from the updated
store. -/
theorem claim_C3 (s : SchedulingState) (typeId : String) :
    ((∃ a ∈ s.store.appointments, a.appointment_type_id = some typeId) →
        handleDeleteAppointmentType s typeId =
          (s, DeleteTypeOutcome.blocked)) ∧
    ((∀ a ∈ s.store.appointments, a.appointment_type_id ≠ some typeId) →
        (handleDeleteAppointmentType s typeId).2 = DeleteTypeOutcome.deleted ∧
        (handleDeleteAppointmentType s typeId).1.store.appointments =
          s.store.appointments ∧
        (handleDeleteAppointmentType s typeId).1.store.appointmentTypes =
          s.store.appointmentTypes.filter (fun t => !(t.id == typeId)) ∧
        (handleDeleteAppointmentType s typeId).1.localTypes =
          fetchAppointmentTypesFrom
            (handleDeleteAppointmentType s typeId).1.store s.currentUser ∧
        (handleDeleteAppointmentType s typeId).1.localAppointments =
          fetchAppointmentsFrom
            (handleDeleteAppointmentType s typeId).1.store s.currentUser) := by
  constructor
  · intro hex
    have hcond : 0 < ((s.store.appointments.filter
        (fun a => a.appointment_type_id == some typeId)).take 1).length := by
      rw [take_one_filter_pos]
      obtain ⟨a, ha, he⟩ := hex
      exact ⟨a, ha, by simp [he]⟩
    simp only [handleDeleteAppointmentType]
    rw [if_pos hcond]
  · intro hall
    have hcond : ¬ 0 < ((s.store.appointments.filter
        (fun a => a.appointment_type_id == some typeId)).take 1).length := by
      rw [take_one_filter_pos]
      rintro ⟨a, ha, hp⟩
      rw [beq_iff_eq] at hp
      exact hall a ha hp
    simp only [handleDeleteAppointmentType]
    rw [if_neg hcond]
    exact ⟨rfl, rfl, rfl, rfl, rfl⟩

def wBusyAppt : Appointment :=
  ⟨"ap1", "p1", "2025-10-01", "09:00", 100, some "t1", "u1",
    some ⟨"p1", "Bob"⟩, some ⟨"t1", "Consulta", 100⟩⟩

def wType : AppointmentType := ⟨"t1", "Consulta", 100, "u1"⟩

def wStateBusy : SchedulingState :=
  ⟨⟨[wType], [wBusyAppt]⟩, [wType], [wBusyAppt], "u1"⟩

def wStateFree : SchedulingState := ⟨⟨[wType], []⟩, [wType], [], "u1"⟩

theorem claim_C3_witness :
    ((∃ a ∈ wStateBusy.store.appointments,
        a.appointment_type_id = some "t1") ∧
      handleDeleteAppointmentType wStateBusy "t1" =
        (wStateBusy, DeleteTypeOutcome.blocked)) ∧
    ((∀ a ∈ wStateFree.store.appointments,
        a.appointment_type_id ≠ some "t1") ∧
      (handleDeleteAppointmentType wStateFree "t1").2 =
        DeleteTypeOutcome.deleted) :=
  ⟨⟨by decide, (claim_C3 wStateBusy "t1").1 (by decide)⟩,
    ⟨by decide, ((claim_C3 wStateFree "t1").2 (by decide)).1⟩⟩

/-- C6: the groups of `calculateTotals` partition the input: their
concatenated appointment lists are a permutation of the input (every record
exactly once), each group holds exactly the input records bearing its own
patientName in input-relative order, and each group's totalValue is the
exact sum of the values in its appointment list. -/
theorem claim_C6 (l : List AppointmentWithPatient) :
    ((calculateTotals l).flatMap PatientTotal.appointments).Perm l ∧
    ∀ g ∈ calculateTotals l,
      g.appointments = l.filter (fun r => r.patientName == g.patientName) ∧
      g.totalValue = (g.appointments.map AppointmentWithPatient.value).sum :=
  ⟨calculateTotals_join l, calculateTotals_spec l⟩

def w6 : AppointmentWithPatient := ⟨"w6", "2025-10-04", "Bob", 3⟩

def w6g : PatientTotal := ⟨"Bob", 3, [w6]⟩

theorem claim_C6_witness :
    (w6g ∈ calculateTotals [w6]) ∧
    w6g.appointments =
        [w6].filter (fun r => r.patientName == w6g.patientName) ∧
    w6g.totalValue = (w6g.appointments.map AppointmentWithPatient.value).sum :=
  ⟨by decide, (claim_C6 [w6]).2 w6g (by decide)⟩

/-- C7: the exported sheet is the header row, then one data row per
appointment record (patient name, `dd/MM/yyyy` date, `R$ `-prefixed
two-decimal value) grouped in group order — one row for each input record,
up to the grouping permutation — then one `Total <name>:` summary row per
patient in group order, then the final `Total Geral:` row; the download
name is `relatorio-financeiro-<localized month>-<year>.xlsx`. -/
theorem claim_C7 (apps : List AppointmentWithPatient) (grand : ℚ)
    (month year : Nat) :
    exportSheet (calculateTotals apps) grand =
        headerRow ::
          ((calculateTotals apps).flatMap
            (fun p => p.appointments.map appointmentRow) ++
          ((calculateTotals apps).map patientTotalRow ++
            [grandTotalRow grand])) ∧
    ((calculateTotals apps).flatMap
        (fun p => p.appointments.map appointmentRow)).Perm
      (apps.map appointmentRow) ∧
    exportFileName month year =
      "relatorio-financeiro-" ++ monthNamesPtBR.getD (month - 1) "" ++ "-" ++
        toString year ++ ".xlsx" := by
  refine ⟨by simp [exportSheet], ?_, rfl⟩
  rw [← List.map_flatMap]
  exact (calculateTotals_join apps).map appointmentRow

/-- C8: the password-change submission sends only the new password: two
valid submissions agreeing on newPassword and confirmPassword but differing
in currentPassword produce identical auth requests, and the request body is
exactly the new password. -/
theorem claim_C8 (d₁ d₂ : PasswordFormData)
    (h₁ : passwordSchemaOK d₁) (h₂ : passwordSchemaOK d₂)
    (hn : d₁.newPassword = d₂.newPassword)
    (hc : d₁.confirmPassword = d₂.confirmPassword) :
    onSubmitRequest d₁ = onSubmitRequest d₂ ∧
    onSubmitRequest d₁ = ⟨d₁.newPassword⟩ := by
  unfold onSubmitRequest
  exact ⟨by rw [hn], rfl⟩

def wd₁ : PasswordFormData := ⟨"aaaaaa", "bbbbbb", "bbbbbb"⟩

def wd₂ : PasswordFormData := ⟨"cccccc", "bbbbbb", "bbbbbb"⟩

theorem claim_C8_witness :
    passwordSchemaOK wd₁ ∧ passwordSchemaOK wd₂ ∧
    wd₁.newPassword = wd₂.newPassword ∧
    wd₁.confirmPassword = wd₂.confirmPassword ∧
    onSubmitRequest wd₁ = onSubmitRequest wd₂ ∧
    onSubmitRequest wd₁ = ⟨wd₁.newPassword⟩ :=
  ⟨by decide, by decide, rfl, rfl,
    claim_C8 wd₁ wd₂ (by decide) (by decide) rfl rfl⟩

/-- C9: the empty input yields no groups and a zero grand total, and a
zero-valued record still produces a group for its patient name. -/
theorem claim_C9 :
    (calculateTotals [] = [] ∧ totalValue [] = 0) ∧
    ∀ (l : List AppointmentWithPatient) (r : AppointmentWithPatient),
      r ∈ l → r.value = 0 →
        ∃ g ∈ calculateTotals l, g.patientName = r.patientName :=
  ⟨⟨rfl, rfl⟩, fun l r h _ => exists_group_of_mem l r h⟩

def zRec : AppointmentWithPatient := ⟨"z0", "2025-10-05", "Zed", 0⟩

theorem claim_C9_witness :
    (zRec ∈ [zRec] ∧ zRec.value = 0) ∧
    ∃ g ∈ calculateTotals [zRec], g.patientName = zRec.patientName :=
  ⟨⟨by decide, rfl⟩, claim_C9.2 [zRec] zRec (by decide) rfl⟩

def anaR1 : AppointmentWithPatient := ⟨"a1", "2025-10-01", "Ana", 100⟩

def anaR2 : AppointmentWithPatient := ⟨"a2", "2025-10-02", "Ana", 50.5⟩

def brunoR : AppointmentWithPatient := ⟨"b1", "2025-10-03", "Bruno", 75.25⟩

def exAna : List AppointmentWithPatient := [anaR1, anaR2, brunoR]

/-- C1: one group per distinct patientName (name-keyed, so two patients
sharing a display name merge), each group's totalValue is the sum of the
values of the input records bearing that name, and on the spec's example
input the output is Ana with 150.50 over two entries and Bruno with 75.25
over one entry, for a grand total of 225.75. -/
theorem claim_C1 :
    (∀ l : List AppointmentWithPatient,
        (calculateTotals l).length =
          ((l.map AppointmentWithPatient.patientName).dedup).length) ∧
    (∀ (l : List AppointmentWithPatient) (g : PatientTotal),
        g ∈ calculateTotals l →
          g.totalValue =
            ((l.filter (fun r => r.patientName == g.patientName)).map
              AppointmentWithPatient.value).sum) ∧
    (calculateTotals exAna =
        [⟨"Ana", 150.50, [anaR1, anaR2]⟩, ⟨"Bruno", 75.25, [brunoR]⟩] ∧
      totalValue exAna = 225.75) := by
  refine ⟨fun l => calculateTotals_length l, fun l g hg => ?_, ?_, ?_⟩
  · obtain ⟨h1, h2⟩ := calculateTotals_spec l g hg
    rw [h2, h1]
  · have hA : isArrayIndex "Ana" = false := by decide
    have hB : isArrayIndex "Bruno" = false := by decide
    simp only [exAna, anaR1, anaR2, brunoR, calculateTotals, totalsMap,
      List.foldl_cons, List.foldl_nil, addApp, jsObjectValues, sortByNum,
      insertByNum]
    norm_num [hA, hB, List.filter]
  · have hA : isArrayIndex "Ana" = false := by decide
    have hB : isArrayIndex "Bruno" = false := by decide
    simp only [totalValue, exAna, anaR1, anaR2, brunoR, calculateTotals,
      totalsMap, List.foldl_cons, List.foldl_nil, addApp, jsObjectValues,
      sortByNum, insertByNum]
    norm_num [hA, hB, List.filter]

def w1r : AppointmentWithPatient := ⟨"w1", "2025-10-06", "Carla", 7⟩

def w1g : PatientTotal := ⟨"Carla", 7, [w1r]⟩

theorem claim_C1_witness :
    (w1g ∈ calculateTotals [w1r]) ∧
    w1g.totalValue =
      (([w1r].filter (fun r => r.patientName == w1g.patientName)).map
        AppointmentWithPatient.value).sum :=
  ⟨by decide, claim_C1.2.1 [w1r] w1g (by decide)⟩

/-- 2-digit rounding is the identity on whole numbers. -/
theorem round2_natCast (n : ℕ) : round2 (n : ℚ) = (n : ℚ) := by
  unfold round2
  have h1 : (100 * (n : ℚ) + 1 / 2) = ((100 * n : ℤ) : ℚ) + 1 / 2 := by
    push_cast; ring
  rw [h1, Int.floor_int_add]
  norm_num

theorem sum_of_natCasts (qs : List ℚ)
    (h : ∀ q ∈ qs, ∃ n : ℕ, q = (n : ℚ)) :
    ∃ n : ℕ, qs.sum = (n : ℚ) := by
  induction qs with
  | nil => exact ⟨0, by simp⟩
  | cons q qs ih =>
      obtain ⟨n, hn⟩ := h q (List.mem_cons_self q qs)
      obtain ⟨m, hm⟩ := ih (fun x hx => h x (List.mem_cons_of_mem q hx))
      exact ⟨n + m, by simp [hn, hm]⟩

/-- C2 (amended): the source sums in raw binary float64, not a fixed-point
or decimal type, and the rounded-subtotal identity fails in general — see
the counterexample, whose values float64 represents and adds exactly.  The
identity does hold when every record value is a whole number of currency
units: every subtotal and the grand total are then whole numbers (which
float64, below 2^53, adds exactly, so the source agrees with this
embedding on such inputs), 2-digit rounding is the identity on them, and
the rounded subtotals sum exactly to the rounded grand total. -/
theorem claim_C2 (l : List AppointmentWithPatient)
    (h : ∀ r ∈ l, ∃ n : ℕ, r.value = (n : ℚ)) :
    ((calculateTotals l).map (fun g => round2 g.totalValue)).sum =
      round2 (totalValue l) := by
  have hgroup : ∀ g ∈ calculateTotals l, ∃ n : ℕ, g.totalValue = (n : ℚ) := by
    intro g hg
    obtain ⟨h1, h2⟩ := calculateTotals_spec l g hg
    rw [h2]
    refine sum_of_natCasts _ ?_
    intro q hq
    obtain ⟨r, hr, rfl⟩ := List.mem_map.mp hq
    have hrl : r ∈ l := by
      rw [h1] at hr
      exact (List.mem_filter.mp hr).1
    exact h r hrl
  have hmap : (calculateTotals l).map (fun g => round2 g.totalValue) =
      (calculateTotals l).map PatientTotal.totalValue := by
    apply List.map_congr_left
    intro g hg
    obtain ⟨n, hn⟩ := hgroup g hg
    rw [hn, round2_natCast]
  rw [hmap]
  have htot : ∃ n : ℕ, totalValue l = (n : ℚ) := by
    rw [totalValue_eq_sum_values]
    refine sum_of_natCasts _ ?_
    intro q hq
    obtain ⟨r, hr, rfl⟩ := List.mem_map.mp hq
    exact h r hr
  obtain ⟨n, hn⟩ := htot
  rw [hn, round2_natCast, ← hn]
  rfl

def wC2 : AppointmentWithPatient := ⟨"wc2", "2025-10-09", "Flor", ((2 : ℕ) : ℚ)⟩

theorem claim_C2_witness :
    (∀ r ∈ [wC2], ∃ n : ℕ, r.value = (n : ℚ)) ∧
    ((calculateTotals [wC2]).map (fun g => round2 g.totalValue)).sum =
      round2 (totalValue [wC2]) :=
  ⟨fun r hr => by
      rw [List.mem_singleton] at hr
      subst hr
      exact ⟨2, rfl⟩,
    claim_C2 [wC2] (fun r hr => by
      rw [List.mem_singleton] at hr
      subst hr
      exact ⟨2, rfl⟩)⟩

def cR1 : AppointmentWithPatient := ⟨"c1", "2025-10-01", "Ana", 0.125⟩

def cR2 : AppointmentWithPatient := ⟨"c2", "2025-10-02", "Bruno", 0.125⟩

def exRound : List AppointmentWithPatient := [cR1, cR2]

/-- C2 counterexample: with two patients whose subtotals are 0.125 each — a
value binary float64 represents exactly, so the source's `number`
arithmetic agrees with ℚ here — the displayed (2-digit-rounded) subtotals
sum to 0.26 while the displayed grand total is 0.25. -/
theorem claim_C2_counterexample :
    ((calculateTotals exRound).map (fun g => round2 g.totalValue)).sum ≠
      round2 (totalValue exRound) := by
  have hA : isArrayIndex "Ana" = false := by decide
  have hB : isArrayIndex "Bruno" = false := by decide
  simp only [totalValue, exRound, cR1, cR2, calculateTotals, totalsMap,
    List.foldl_cons, List.foldl_nil, addApp, jsObjectValues, sortByNum,
    insertByNum]
  norm_num [round2, hA, hB, List.filter]

/-- C4 (amended): provided no patientName is a JavaScript array-index
string (a canonical base-10 numeral below 2^32 - 1), the groups appear in
first-appearance order of their names in the input: any earlier group's
name first occurs strictly before any later group's.  (For inputs that do
contain array-index names, `Object.values` moves those groups to the front
in ascending numeric order — see the counterexample.) -/
theorem claim_C4 (l : List AppointmentWithPatient)
    (h : ∀ r ∈ l, isArrayIndex r.patientName = false) :
    List.Pairwise
      (fun g₁ g₂ =>
        firstOccur l g₁.patientName < firstOccur l g₂.patientName)
      (calculateTotals l) := by
  rw [calculateTotals_eq_totalsMap l h]
  have hk := pairwise_firstOccur_firstAppear l
  rw [← totalsMap_keys] at hk
  unfold keys at hk
  exact (@List.pairwise_map PatientTotal String PatientTotal.patientName
    (fun n₁ n₂ => firstOccur l n₁ < firstOccur l n₂) (totalsMap l)).mp hk

def z0 : AppointmentWithPatient := ⟨"z1", "2025-10-01", "Ana", 1⟩

def z1 : AppointmentWithPatient := ⟨"z2", "2025-10-02", "0", 2⟩

def exIdx : List AppointmentWithPatient := [z0, z1]

/-- C4 counterexample: a patient named "0" (an array-index property key)
first appears after "Ana", yet `Object.values` yields its group first, so
the output is not in first-appearance order. -/
theorem claim_C4_counterexample :
    ¬ List.Pairwise
        (fun g₁ g₂ =>
          firstOccur exIdx g₁.patientName < firstOccur exIdx g₂.patientName)
        (calculateTotals exIdx) := by decide

def w4a : AppointmentWithPatient := ⟨"w4a", "2025-10-07", "Dora", 4⟩

def w4b : AppointmentWithPatient := ⟨"w4b", "2025-10-08", "Enzo", 5⟩

theorem claim_C4_witness :
    (∀ r ∈ [w4a, w4b], isArrayIndex r.patientName = false) ∧
    List.Pairwise
      (fun g₁ g₂ =>
        firstOccur [w4a, w4b] g₁.patientName <
          firstOccur [w4a, w4b] g₂.patientName)
      (calculateTotals [w4a, w4b]) :=
  ⟨by decide, claim_C4 [w4a, w4b] (by decide)⟩

/-- C5 (amended): a null-patient appointment is excluded both from the
rendered scheduled-consultations list and from the report's aggregation
input; the scheduling list retains exactly the appointments with a non-null
patient, while the report retains a row only when its patient is present
AND has a non-empty name (the original claim's unconditional retention of
every resolvable-patient appointment fails on an empty name — see the
counterexample). -/
theorem claim_C5 :
    (∀ (apps : List Appointment) (a : Appointment),
        a ∈ visibleAppointments apps ↔ a ∈ apps ∧ a.patient.isSome) ∧
    (∀ rows : List ReportRow,
        formattedAppointments rows =
          formattedAppointments (rows.filter (fun r => r.patients.isSome))) ∧
    (∀ (rows : List ReportRow) (r : ReportRow) (p : ReportPatientRef),
        r ∈ rows → r.patients = some p → p.name ≠ "" →
          toFormattedRow r ∈ formattedAppointments rows) := by
  refine ⟨fun apps a => ?_, fun rows => ?_, fun rows r p hr hp hne => ?_⟩
  · simp [visibleAppointments, List.mem_filter]
  · unfold formattedAppointments
    rw [List.filter_filter]
    congr 1
    apply List.filter_congr
    intro r _
    cases hp : r.patients with
    | none => simp [rowKeep, hp]
    | some p => simp [rowKeep, hp]
  · unfold formattedAppointments
    exact List.mem_map_of_mem _
      (List.mem_filter.mpr ⟨hr, by simp [rowKeep, hp, hne]⟩)

def orphanNameRow : ReportRow := ⟨"r1", "2025-10-01", some 10, some ⟨""⟩⟩

/-- C5 counterexample: a row whose patient resolves but has the empty name
is dropped from the report input, refuting the claim's unconditional
retention of resolvable-patient appointments. -/
theorem claim_C5_counterexample :
    orphanNameRow.patients.isSome = true ∧
    orphanNameRow ∈ [orphanNameRow] ∧
    toFormattedRow orphanNameRow ∉ formattedAppointments [orphanNameRow] := by
  decide

def keptRow : ReportRow := ⟨"r2", "2025-10-02", some 10, some ⟨"Bob"⟩⟩

theorem claim_C5_witness :
    (keptRow ∈ [keptRow] ∧ keptRow.patients = some ⟨"Bob"⟩ ∧
      ("Bob" : String) ≠ "") ∧
    toFormattedRow keptRow ∈ formattedAppointments [keptRow] :=
  ⟨⟨by decide, rfl, by decide⟩,
    claim_C5.2.2 [keptRow] keptRow ⟨"Bob"⟩ (by decide) rfl (by decide)⟩

/-- C10: a fetched report row whose patient exists but has the empty-string
name contributes nothing to the report's aggregation input, hence nothing
to the computed groups or the exported sheet, while the scheduling list —
which only checks that the patient is non-null — still displays such an
appointment. -/
theorem claim_C10 :
    (∀ rows : List ReportRow,
        formattedAppointments rows =
          formattedAppointments
            (rows.filter (fun r => !(r.patients == some ⟨""⟩)))) ∧
    (∀ rows : List ReportRow,
        calculateTotals (formattedAppointments rows) =
          calculateTotals (formattedAppointments
            (rows.filter (fun r => !(r.patients == some ⟨""⟩)))) ∧
        exportSheet (calculateTotals (formattedAppointments rows))
            (totalValue (formattedAppointments rows)) =
          exportSheet
            (calculateTotals (formattedAppointments
              (rows.filter (fun r => !(r.patients == some ⟨""⟩)))))
            (totalValue (formattedAppointments
              (rows.filter (fun r => !(r.patients == some ⟨""⟩)))))) ∧
    (∀ (apps : List Appointment) (a : Appointment) (p : SchedPatient),
        a ∈ apps → a.patient = some p → a ∈ visibleAppointments apps) := by
  have h1 : ∀ rows : List ReportRow,
      formattedAppointments rows =
        formattedAppointments
          (rows.filter (fun r => !(r.patients == some ⟨""⟩))) := by
    intro rows
    unfold formattedAppointments
    rw [List.filter_filter]
    congr 1
    apply List.filter_congr
    intro r _
    cases hp : r.patients with
    | none => simp [rowKeep, hp]
    | some p =>
        cases p with
        | mk n =>
            by_cases hn : n = ""
            · simp [rowKeep, hp, hn]
            · simp [rowKeep, hp, hn]
  refine ⟨h1, fun rows => ⟨by rw [← h1], by rw [← h1]⟩,
    fun apps a p ha hp => ?_⟩
  exact List.mem_filter.mpr ⟨ha, by simp [hp]⟩

def emptyNamePatient : SchedPatient := ⟨"p9", ""⟩

def emptyNameAppt : Appointment :=
  ⟨"ap9", "p9", "2025-10-02", "10:00", 50, some "t1", "u1",
    some emptyNamePatient, none⟩

theorem claim_C10_witness :
    (emptyNameAppt ∈ [emptyNameAppt] ∧
      emptyNameAppt.patient = some emptyNamePatient) ∧
    emptyNameAppt ∈ visibleAppointments [emptyNameAppt] :=
  ⟨⟨by decide, rfl⟩,
    claim_C10.2.2 [emptyNameAppt] emptyNameAppt emptyNamePatient
      (by decide) rfl⟩

end ClinicManager
